import Mathlib

/-!
Shallow embedding of `src/quality_classifier.py` (optical-spectrum-analyzer).

Python floats are modelled as exact rationals (`ℚ`); `np.std`, which takes a
real square root, is modelled with `Real.sqrt`.  Fallible numpy operations are
modelled with `Except PyError`: the code performs no input validation of its
own, so the only errors are the raw numpy exceptions (`ValueError`,
`IndexError`).  The constructor `invalidInput` models the error kind named by
the specification (section 7); the source never produces it, and it is included
only so that the spec's error-handling sentences can be stated.

Diagnostic notes are modelled as an inductive type carrying the same data as
the Python f-strings (string formatting itself is presentation, not logic).
-/

/-- Error kinds.  `valueError`/`indexError` are the raw numpy exceptions the
source can raise; `invalidInput` is the error kind the specification demands
(never produced by the source). -/
inductive PyError
  | valueError
  | indexError
  | invalidInput
  deriving DecidableEq, Repr

/-- Diagnostic notes appended by `calculate_metrics`, one constructor per
f-string in the source (lines 132, 155, 165, 167). -/
inductive Note
  | visibleRangeNotCovered
  | detectedDefects (n : ℕ)
  | belowThreshold (avg thr : ℚ)
  | failedDefects
  deriving DecidableEq, Repr

/-- `QualityGrade` enum (quality_classifier.py lines 32-37). -/
inductive QualityGrade
  | excellent
  | good
  | fair
  | poor
  deriving DecidableEq, Repr

/-- `GRADE_THRESHOLDS` class constant (lines 74-79). -/
def GRADE_THRESHOLDS : QualityGrade → ℚ
  | .excellent => 90
  | .good => 80
  | .fair => 70
  | .poor => 0

/-- Classifier configuration: the two constructor arguments of
`QualityClassifier.__init__` (lines 85-98). -/
structure Config where
  visible_threshold : ℚ
  bandwidth_threshold : ℚ
  deriving DecidableEq, Repr

/-- `np.max` on a possibly-empty list; the empty case is unreachable in the
success path (numpy raises `ValueError` there, modelled by the caller). -/
def npMax : List ℚ → ℚ
  | [] => 0
  | x :: xs => xs.foldl max x

/-- `np.argmax`: index of the first occurrence of the maximum. -/
def argmaxIdx (t : List ℚ) : ℕ := t.findIdx (fun x => decide (npMax t ≤ x))

/-- `np.mean` (division by zero only in branches the caller guards). -/
def npMean (l : List ℚ) : ℚ := l.sum / l.length

/-- Population variance, `np.std l ^ 2`. -/
def npVariance (l : List ℚ) : ℚ := npMean (l.map (fun x => (x - npMean l) ^ 2))

/-- `np.std`: square root of the population variance. -/
noncomputable def npStd (l : List ℚ) : ℝ := Real.sqrt (npVariance l)

/-- `visible_mask.any()` (line 128): does any wavelength lie in
`VISIBLE_RANGE = (400, 700)` inclusive? -/
def hasVisible (w : List ℚ) : Bool :=
  w.any (fun x => decide (400 ≤ x) && decide (x ≤ 700))

/-- `transmission_pct[visible_mask]` (line 129): the transmission values at
indices whose wavelength is in [400, 700]; faithful for equal-length arrays
(unequal lengths raise `IndexError`, modelled by the caller). -/
def visibleSel (w t : List ℚ) : List ℚ :=
  ((w.zip t).filter (fun p => decide (400 ≤ p.1) && decide (p.1 ≤ 700))).map Prod.snd

/-- `avg_visible` (lines 126-132): mean over the visible mask, falling back to
the full-spectrum mean when the mask is empty. -/
def avg_visible (w t : List ℚ) : ℚ :=
  if hasVisible w then npMean (visibleSel w t) else npMean t

/-- Indices of `np.where(transmission >= threshold)[0]` (lines 191-197). -/
def qualifyingIdx (t : List ℚ) (thr : ℚ) : List ℕ :=
  (List.range t.length).filter (fun i => decide (thr ≤ t.getD i 0))

/-- `_calculate_bandwidth` (lines 184-202): wavelength at the last index above
threshold minus wavelength at the first such index, 0 when none qualify.
(The source's two emptiness checks, `not above_threshold.any()` and
`len(indices) == 0`, collapse to the single test here.) -/
def calc_bandwidth (w t : List ℚ) (thr : ℚ) : ℚ :=
  let idxs := qualifyingIdx t thr
  if idxs = [] then 0
  else w.getD ((idxs.getLast?).getD 0) 0 - w.getD (idxs.headD 0) 0

/-- `np.gradient(transmission, wavelength)` (line 217) for equal-length arrays
of length ≥ 2 (numpy raises `ValueError` otherwise; the caller models that).
One-sided differences at the boundaries, numpy's quadratic-accurate
nonuniform-spacing formula in the interior. -/
def np_gradient (t w : List ℚ) : List ℚ :=
  let n := t.length
  (List.range n).map (fun i =>
    if i = 0 then (t.getD 1 0 - t.getD 0 0) / (w.getD 1 0 - w.getD 0 0)
    else if i = n - 1 then
      (t.getD (n - 1) 0 - t.getD (n - 2) 0) / (w.getD (n - 1) 0 - w.getD (n - 2) 0)
    else
      let dx1 := w.getD i 0 - w.getD (i - 1) 0
      let dx2 := w.getD (i + 1) 0 - w.getD i 0
      (-dx2 / (dx1 * (dx1 + dx2))) * t.getD (i - 1) 0
        + ((dx2 - dx1) / (dx1 * dx2)) * t.getD i 0
        + (dx1 / (dx2 * (dx1 + dx2))) * t.getD (i + 1) 0)

/-- Full discrete convolution, `np.convolve(a, v, mode='full')`:
entry `k` is `Σ_j a[k-j]·v[j]` over the indices in range. -/
def convolve_full (a v : List ℚ) : List ℚ :=
  (List.range (a.length + v.length - 1)).map (fun k =>
    ((List.range v.length).map (fun j =>
      if j ≤ k then a.getD (k - j) 0 * v.getD j 0 else 0)).sum)

/-- `np.convolve(a, v, mode='same')`: the centered slice of the full
convolution, of length `max (a.length) (v.length)` — NOT of the input's
length when the kernel is longer than the input. -/
def convolve_same (a v : List ℚ) : List ℚ :=
  let full := convolve_full a v
  let start := (min a.length v.length - 1) / 2
  (List.range (max a.length v.length)).map (fun i => full.getD (i + start) 0)

/-- Gradient smoothing (lines 220-225): moving average with window
`min 5 (len/10)`, skipped when the window is ≤ 1. -/
def smooth_gradient (g : List ℚ) : List ℚ :=
  let window := min 5 (g.length / 10)
  if 1 < window then convolve_same g (List.replicate window ((window : ℚ)⁻¹)) else g

/-- `sharp_drops` (line 228): indices where the smoothed gradient is below
`-DEFECT_GRADIENT_THRESHOLD = -0.5`. -/
def sharp_drops (w t : List ℚ) : List ℕ :=
  let gs := smooth_gradient (np_gradient t w)
  (List.range gs.length).filter (fun i => decide (gs.getD i 0 < -(1/2 : ℚ)))

/-- Clustering loop body (lines 235-241): successive flagged indices whose gap
is < 10 are grouped into one cluster. -/
def cluster_go : List ℕ → ℕ → List ℕ → List (List ℕ) → List (List ℕ)
  | [], _, cur, acc => acc ++ [cur]
  | y :: ys, prev, cur, acc =>
      if y - prev < 10 then cluster_go ys y (cur ++ [y]) acc
      else cluster_go ys y [y] (acc ++ [cur])

/-- Clustering of the sharp-drop indices (lines 231-241); empty input produces
no clusters (the source guards with `len(sharp_drops) > 0`). -/
def clusterize : List ℕ → List (List ℕ)
  | [] => []
  | x :: xs => cluster_go xs x [x] []

/-- Gradient-cluster pass (lines 216-246): wavelength at the middle index
(`cluster[len(cluster)//2]`) of each cluster. -/
def gradient_cluster_locations (w t : List ℚ) : List ℚ :=
  (clusterize (sharp_drops w t)).map (fun c => w.getD (c.getD (c.length / 2) 0) 0)

/-- `local_mean` (line 250): moving average of the transmission with a FIXED
window of 20 samples; its length is `max (t.length) 20`. -/
def local_mean (t : List ℚ) : List ℚ :=
  convolve_same t (List.replicate 20 ((1 : ℚ)/20))

/-- `absorption_bands` (lines 251-253): indices where
`transmission - local_mean < -DEFECT_DROP_THRESHOLD*100 = -10`.
Faithful when `local_mean` has the input's length (otherwise the subtraction
raises `ValueError`; the caller models that). -/
def absorption_bands (t : List ℚ) : List ℕ :=
  let lm := local_mean t
  (List.range t.length).filter (fun i => decide (t.getD i 0 - lm.getD i 0 < -10))

/-- The add-unique loop of the local-deviation pass (lines 256-260): a flagged
wavelength is appended exactly when it is not within 50 nm of any location
already in the accumulating list — which includes locations this very loop
appended earlier. -/
def add_unique (acc : List ℚ) (flagged : List ℚ) : List ℚ :=
  flagged.foldl
    (fun a wl => if a.any (fun loc => decide (|wl - loc| < 50)) then a else a ++ [wl]) acc

/-- The defect list computed by `_detect_defects` on the success path
(lines 204-262): gradient-cluster locations, then the deduplicated
local-deviation locations, sorted ascending (Python's stable `sorted`). -/
def detect_defects_list (w t : List ℚ) : List ℚ :=
  List.insertionSort (· ≤ ·)
    (add_unique (gradient_cluster_locations w t)
      ((absorption_bands t).map (fun i => w.getD i 0)))

/-- `_detect_defects` with numpy's failure modes: `np.gradient` raises
`ValueError` on mismatched lengths or fewer than 2 points, and
`transmission - local_mean` raises `ValueError` whenever `local_mean`
(of length `max len 20`) does not match the input's length, i.e. whenever
the spectrum has fewer than 20 points. -/
def detect_defects (w t : List ℚ) : Except PyError (List ℚ) :=
  if w.length ≠ t.length ∨ t.length < 2 then .error .valueError
  else if (local_mean t).length ≠ t.length then .error .valueError
  else .ok (detect_defects_list w t)

/-- `_classify_grade` (lines 264-273). -/
def classify_grade (avg : ℚ) : QualityGrade :=
  if GRADE_THRESHOLDS .excellent ≤ avg then .excellent
  else if GRADE_THRESHOLDS .good ≤ avg then .good
  else if GRADE_THRESHOLDS .fair ≤ avg then .fair
  else .poor

/-- `QualityMetrics` dataclass (lines 40-54).  `uniformity_score` is a real
number because `np.std` is a square root; every other numeric field is exact. -/
structure QualityMetrics where
  sample_id : String
  material_type : String
  peak_transmission : ℚ
  avg_transmission_visible : ℚ
  avg_transmission_full : ℚ
  transmission_bandwidth_nm : ℚ
  uniformity_score : ℝ
  defect_count : ℕ
  defect_locations : List ℚ
  quality_grade : QualityGrade
  pass_qc : Bool
  notes : List Note

/-- The coefficient of variation (line 145): `std/mean` over the visible
subset when the mean is positive, else 1. -/
noncomputable def uniformity_cv (w t : List ℚ) : ℝ :=
  if 0 < npMean (visibleSel w t) then
    npStd (visibleSel w t) / (npMean (visibleSel w t) : ℝ)
  else 1

/-- Uniformity score (lines 142-148): `max(0, 1 - cv) * 100` over the visible
subset; 0 when no visible points exist. -/
noncomputable def uniformity_of (w t : List ℚ) : ℝ :=
  if hasVisible w then max 0 (1 - uniformity_cv w t) * 100 else 0

/-- Pass/fail (line 161): `avg_visible >= visible_threshold and defect_count == 0`. -/
def pass_fn (cfg : Config) (w t : List ℚ) : Bool :=
  decide (cfg.visible_threshold ≤ avg_visible w t) &&
    decide ((detect_defects_list w t).length = 0)

/-- The notes list, in the order the source appends (lines 132, 154-155,
163-167). -/
def notes_fn (cfg : Config) (w t : List ℚ) : List Note :=
  (if hasVisible w then [] else [Note.visibleRangeNotCovered]) ++
  (if 0 < (detect_defects_list w t).length then
      [Note.detectedDefects (detect_defects_list w t).length] else []) ++
  (if pass_fn cfg w t then [] else
    (if avg_visible w t < cfg.visible_threshold then
        [Note.belowThreshold (avg_visible w t) cfg.visible_threshold] else []) ++
    (if 0 < (detect_defects_list w t).length then [Note.failedDefects] else []))

/-- The record `calculate_metrics` builds on its success path (lines 169-182). -/
noncomputable def mkMetrics (cfg : Config) (sid mat : String) (w t : List ℚ) :
    QualityMetrics where
  sample_id := sid
  material_type := mat
  peak_transmission := npMax t
  avg_transmission_visible := avg_visible w t
  avg_transmission_full := npMean t
  transmission_bandwidth_nm := calc_bandwidth w t cfg.bandwidth_threshold
  uniformity_score := uniformity_of w t
  defect_count := (detect_defects_list w t).length
  defect_locations := detect_defects_list w t
  quality_grade := classify_grade (avg_visible w t)
  pass_qc := pass_fn cfg w t
  notes := notes_fn cfg w t

/-- Does `wavelength[indices[-1]]` in `_calculate_bandwidth` index out of
range?  (Only possible when the arrays have mismatched lengths.) -/
def bandwidthOOB (w t : List ℚ) (thr : ℚ) : Bool :=
  match (qualifyingIdx t thr).getLast? with
  | none => false
  | some i => decide (w.length ≤ i)

/-- `calculate_metrics` (lines 100-182), with numpy's failure points in source
order: `np.max` on an empty array raises `ValueError` (line 122);
`wavelength_nm[np.argmax(...)]` raises `IndexError` when the index is out of
range (line 123); boolean-mask indexing `transmission_pct[visible_mask]`
raises `IndexError` when the mask's length differs from the array's
(line 129, reached only when the mask has a true entry); the wavelength
lookups in `_calculate_bandwidth` raise `IndexError` when out of range
(line 202); and `_detect_defects` raises as modelled in `detect_defects`.
The source catches none of these. -/
noncomputable def calculate_metrics (cfg : Config) (sid mat : String)
    (w t : List ℚ) : Except PyError QualityMetrics :=
  if t.length = 0 then .error .valueError
  else if w.length ≤ argmaxIdx t then .error .indexError
  else if hasVisible w ∧ w.length ≠ t.length then .error .indexError
  else if bandwidthOOB w t cfg.bandwidth_threshold then .error .indexError
  else
    match detect_defects w t with
    | .error e => .error e
    | .ok _ => .ok (mkMetrics cfg sid mat w t)

instance {ε α : Type} [DecidableEq ε] [DecidableEq α] : DecidableEq (Except ε α)
  | .error a, .error b =>
      if h : a = b then .isTrue (by rw [h]) else .isFalse (by simp [h])
  | .error _, .ok _ => .isFalse (by simp)
  | .ok _, .error _ => .isFalse (by simp)
  | .ok a, .ok b =>
      if h : a = b then .isTrue (by rw [h]) else .isFalse (by simp [h])

attribute [local semireducible] Rat.add Rat.sub Rat.mul Rat.inv

/-! Concrete spectra used as witnesses and counterexamples. -/

/-- 20 wavelengths 400, 415, …, 685 nm, all inside the visible range. -/
def Wvis : List ℚ := (List.range 20).map (fun i => 400 + 15 * i)

/-- A flat transmission spectrum at 95 %. -/
def Tflat : List ℚ := List.replicate 20 95

/-- 20 wavelengths 705, 715, …, 895 nm, all outside the visible range. -/
def Wnir : List ℚ := (List.range 20).map (fun i => 705 + 10 * i)

/-- Wavelengths spaced 10000 nm apart except for a 10 nm step between the two
dip points at indices 10 and 11 (so the transmission gradients stay tiny). -/
def W3 : List ℚ :=
  [0, 10000, 20000, 30000, 40000, 50000, 60000, 70000, 80000, 90000,
   100000, 100010, 110010, 120010, 130010, 140010, 150010, 160010, 170010, 180010]

/-- Transmission 100 % everywhere except a double dip to 0 at indices 10, 11. -/
def T3 : List ℚ :=
  [100, 100, 100, 100, 100, 100, 100, 100, 100, 100,
   0, 0, 100, 100, 100, 100, 100, 100, 100, 100]

/-- The spec's 7-point scenario spectrum (section 8). -/
def W7 : List ℚ := [400, 450, 500, 550, 600, 650, 700]

/-- Transmission with a single dip at 550 nm. -/
def T7 : List ℚ := [95, 95, 95, 40, 95, 95, 95]

/-! Basic facts about the pipeline's success and failure domains. -/

lemma convolve_same_length (a v : List ℚ) :
    (convolve_same a v).length = max a.length v.length := by
  simp [convolve_same]

lemma local_mean_length (t : List ℚ) : (local_mean t).length = max t.length 20 := by
  simp [local_mean, convolve_same_length]

/-- On equal-length arrays of at least 20 points, `_detect_defects` succeeds
and returns the merged sorted defect list. -/
lemma detect_defects_ok (w t : List ℚ) (h1 : w.length = t.length)
    (h2 : 20 ≤ t.length) :
    detect_defects w t = Except.ok (detect_defects_list w t) := by
  unfold detect_defects
  rw [if_neg, if_neg]
  · rw [local_mean_length]
    omega
  · omega

/-- On any other input, `_detect_defects` raises. -/
lemma detect_defects_err (w t : List ℚ)
    (h : ¬(w.length = t.length ∧ 20 ≤ t.length)) :
    detect_defects w t = Except.error PyError.valueError := by
  unfold detect_defects
  by_cases h1 : w.length ≠ t.length ∨ t.length < 2
  · rw [if_pos h1]
  · rw [if_neg h1, if_pos]
    rw [local_mean_length]
    omega

lemma getLast?_mem {α : Type} : ∀ {l : List α} {a : α}, l.getLast? = some a → a ∈ l
  | [x], a, h => by
      simp only [List.getLast?_singleton, Option.some.injEq] at h
      simp [h]
  | x :: y :: tl, a, h => by
      rw [List.getLast?_cons_cons] at h
      exact List.mem_cons_of_mem x (getLast?_mem h)

lemma mem_qualifyingIdx {t : List ℚ} {thr : ℚ} {i : ℕ} :
    i ∈ qualifyingIdx t thr ↔ i < t.length ∧ thr ≤ t.getD i 0 := by
  simp [qualifyingIdx, List.mem_filter, List.mem_range]

lemma foldl_max_mem : ∀ (l : List ℚ) (a : ℚ), l.foldl max a = a ∨ l.foldl max a ∈ l := by
  intro l
  induction l with
  | nil =>
    intro a
    left
    rfl
  | cons y ys ih =>
    intro a
    rw [List.foldl_cons]
    rcases ih (max a y) with h | h
    · rw [h]
      rcases max_choice a y with hm | hm
      · left
        exact hm
      · right
        rw [hm]
        exact List.mem_cons_self y ys
    · right
      exact List.mem_cons_of_mem y h

lemma npMax_mem : ∀ {t : List ℚ}, t ≠ [] → npMax t ∈ t := by
  intro t ht
  match t with
  | x :: xs =>
    show xs.foldl max x ∈ x :: xs
    rcases foldl_max_mem xs x with h | h
    · rw [h]
      exact List.mem_cons_self x xs
    · exact List.mem_cons_of_mem x h

lemma argmaxIdx_lt (t : List ℚ) (ht : t ≠ []) : argmaxIdx t < t.length := by
  apply List.findIdx_lt_length_of_exists
  exact ⟨npMax t, npMax_mem ht, by simp⟩

lemma bandwidthOOB_false (w t : List ℚ) (thr : ℚ) (h1 : w.length = t.length) :
    bandwidthOOB w t thr = false := by
  unfold bandwidthOOB
  cases hl : (qualifyingIdx t thr).getLast? with
  | none => rfl
  | some i =>
    have : i < t.length := (mem_qualifyingIdx.1 (getLast?_mem hl)).1
    simp only [decide_eq_false_iff_not]
    omega

/-- On equal-length arrays of at least 20 points, `calculate_metrics` succeeds
and returns exactly the record built by `mkMetrics`. -/
lemma calc_ok (cfg : Config) (sid mat : String) (w t : List ℚ)
    (h1 : w.length = t.length) (h2 : 20 ≤ t.length) :
    calculate_metrics cfg sid mat w t = Except.ok (mkMetrics cfg sid mat w t) := by
  have ht : t ≠ [] := by
    intro h
    rw [h] at h2
    simp at h2
  unfold calculate_metrics
  rw [if_neg (by simp [List.length_eq_zero, ht]), if_neg, if_neg (by simp [h1]),
    if_neg, detect_defects_ok w t h1 h2]
  · simp [bandwidthOOB_false w t _ h1]
  · have := argmaxIdx_lt t ht
    omega

/-- Conversely, every `Except.ok` result of `calculate_metrics` is the
`mkMetrics` record (and the input was an equal-length pair of ≥ 20 points). -/
lemma calc_ok_inv {cfg : Config} {sid mat : String} {w t : List ℚ}
    {m : QualityMetrics} (h : calculate_metrics cfg sid mat w t = Except.ok m) :
    m = mkMetrics cfg sid mat w t ∧ w.length = t.length ∧ 20 ≤ t.length := by
  by_cases hv : w.length = t.length ∧ 20 ≤ t.length
  · rw [calc_ok cfg sid mat w t hv.1 hv.2] at h
    exact ⟨(Except.ok.injEq _ _ ▸ h.symm : m = _), hv⟩
  · exfalso
    unfold calculate_metrics at h
    split at h
    · exact Except.noConfusion h
    · split at h
      · exact Except.noConfusion h
      · split at h
        · exact Except.noConfusion h
        · split at h
          · exact Except.noConfusion h
          · rw [detect_defects_err w t hv] at h
            exact Except.noConfusion h

/-- The total order Poor < Fair < Good < Excellent on grades. -/
def gradeRank : QualityGrade → ℕ
  | .poor => 0
  | .fair => 1
  | .good => 2
  | .excellent => 3

/-- The Python defaults `visible_threshold=80.0, bandwidth_threshold=80.0`. -/
def cfgD : Config := ⟨80, 80⟩

lemma calc_toOption_none (cfg : Config) (sid mat : String) (w t : List ℚ)
    (h : ¬(w.length = t.length ∧ 20 ≤ t.length)) :
    (calculate_metrics cfg sid mat w t).toOption = none := by
  cases hc : calculate_metrics cfg sid mat w t with
  | error e => rfl
  | ok m => exact absurd (calc_ok_inv hc).2 h

lemma detect_defects_error_kind {w t : List ℚ} {e : PyError}
    (h : detect_defects w t = Except.error e) : e = PyError.valueError := by
  unfold detect_defects at h
  split at h
  · injection h with h2
    exact h2.symm
  · split at h
    · injection h with h2
      exact h2.symm
    · injection h

lemma calculate_metrics_error_kind {cfg : Config} {sid mat : String}
    {w t : List ℚ} {e : PyError}
    (h : calculate_metrics cfg sid mat w t = Except.error e) :
    e = PyError.valueError ∨ e = PyError.indexError := by
  unfold calculate_metrics at h
  split at h
  · injection h with h2
    exact Or.inl h2.symm
  · split at h
    · injection h with h2
      exact Or.inr h2.symm
    · split at h
      · injection h with h2
        exact Or.inr h2.symm
      · split at h
        · injection h with h2
          exact Or.inr h2.symm
        · split at h
          · rename_i e2 he2
            injection h with h2
            exact Or.inl (h2.symm.trans (detect_defects_error_kind he2))
          · injection h

/-- Claim C7: the grade classification is monotone — increasing the average
visible transmission never decreases the assigned grade, under the total
order Poor < Fair < Good < Excellent. -/
theorem grade_monotone (a b : ℚ) (h : a ≤ b) :
    gradeRank (classify_grade a) ≤ gradeRank (classify_grade b) := by
  unfold classify_grade GRADE_THRESHOLDS
  split_ifs <;> simp [gradeRank] <;> linarith

theorem grade_monotone_witness :
    (75 : ℚ) ≤ 95 ∧ gradeRank (classify_grade 75) ≤ gradeRank (classify_grade 95) :=
  ⟨by norm_num, grade_monotone 75 95 (by norm_num)⟩

/-- Claim C6: the grade is a pure function of the average visible transmission
with the fixed thresholds 90/80/70 (Excellent/Good/Fair, else Poor); the
configured `visible_threshold` has no effect on the grade field of the
returned record. -/
theorem grade_fixed_thresholds (cfg cfg2 : Config) (sid mat : String)
    (w t : List ℚ) (a : ℚ) :
    (classify_grade a = if 90 ≤ a then QualityGrade.excellent
      else if 80 ≤ a then QualityGrade.good
      else if 70 ≤ a then QualityGrade.fair else QualityGrade.poor) ∧
    ((calculate_metrics cfg sid mat w t).toOption.map QualityMetrics.quality_grade
      = (calculate_metrics cfg2 sid mat w t).toOption.map QualityMetrics.quality_grade) ∧
    (∀ m, calculate_metrics cfg sid mat w t = Except.ok m →
      m.quality_grade = classify_grade (avg_visible w t)) := by
  refine ⟨rfl, ?_, ?_⟩
  · by_cases hv : w.length = t.length ∧ 20 ≤ t.length
    · rw [calc_ok cfg sid mat w t hv.1 hv.2, calc_ok cfg2 sid mat w t hv.1 hv.2]
      rfl
    · rw [calc_toOption_none cfg sid mat w t hv, calc_toOption_none cfg2 sid mat w t hv]
  · intro m hm
    rw [(calc_ok_inv hm).1]
    rfl

theorem grade_fixed_thresholds_witness :
    (mkMetrics cfgD "s" "m" Wvis Tflat).quality_grade
      = classify_grade (avg_visible Wvis Tflat) :=
  (grade_fixed_thresholds cfgD ⟨90, 80⟩ "s" "m" Wvis Tflat 0).2.2
    (mkMetrics cfgD "s" "m" Wvis Tflat)
    (calc_ok cfgD "s" "m" Wvis Tflat (by decide) (by decide))

/-- Claim C1 (corrected): `calculate_metrics` performs no input validation of
its own — on empty arrays the `np.max` reduction raises a raw `ValueError`,
on mismatched lengths a raw `IndexError`/`ValueError` propagates, and no
`InvalidInput` error is ever produced. -/
theorem calculate_metrics_raw_errors (cfg : Config) (sid mat : String)
    (w t : List ℚ) (h : t = [] ∨ w.length ≠ t.length) :
    ∃ e, calculate_metrics cfg sid mat w t = Except.error e ∧
      e ≠ PyError.invalidInput := by
  cases hc : calculate_metrics cfg sid mat w t with
  | ok m =>
    exfalso
    obtain ⟨-, hlen, hlong⟩ := calc_ok_inv hc
    rcases h with h | h
    · rw [h] at hlong
      simp at hlong
    · exact h hlen
  | error e =>
    refine ⟨e, rfl, ?_⟩
    rcases calculate_metrics_error_kind hc with he | he <;> simp [he]

theorem calculate_metrics_raw_errors_witness :
    ∃ e, calculate_metrics cfgD "s" "m" [] [] = Except.error e ∧
      e ≠ PyError.invalidInput :=
  calculate_metrics_raw_errors cfgD "s" "m" [] [] (Or.inl rfl)

/-- Claim C1, counterexample to the claim as stated: on empty input arrays the
error is the raw numpy `ValueError`, not the `InvalidInput` error the claim
requires. -/
theorem calculate_metrics_empty_not_invalid_input :
    calculate_metrics cfgD "s" "m" [] [] = Except.error PyError.valueError ∧
    PyError.valueError ≠ PyError.invalidInput := by
  exact ⟨rfl, by simp⟩

/-- Claim C2 (the code violates it): on the spec's own 7-point scenario
(fewer than 20 points), `_detect_defects` does not skip the local-deviation
pass — `np.convolve(transmission, ones(20)/20, 'same')` returns a length-20
array for a length-7 input, so `transmission - local_mean` raises a raw
`ValueError` instead of returning the gradient pass's finding (500 nm). -/
theorem detect_defects_short_input_raises :
    detect_defects W7 T7 = Except.error PyError.valueError ∧
    T7.length = 7 ∧ (local_mean T7).length = 20 ∧
    gradient_cluster_locations W7 T7 = [500] := by
  refine ⟨by decide, by decide, by decide, by decide⟩

/-- Claim C4: `pass_qc` is true exactly when the average visible transmission
is at least the configured `visible_threshold` and the defect count is 0;
in particular any positive defect count forces `pass_qc = false`. -/
theorem pass_qc_iff (cfg : Config) (sid mat : String) (w t : List ℚ)
    (m : QualityMetrics) (h : calculate_metrics cfg sid mat w t = Except.ok m) :
    (m.pass_qc = true ↔
      (cfg.visible_threshold ≤ m.avg_transmission_visible ∧ m.defect_count = 0)) ∧
    (0 < m.defect_count → m.pass_qc = false) := by
  obtain ⟨hm, -, -⟩ := calc_ok_inv h
  subst hm
  constructor
  · show pass_fn cfg w t = true ↔ _
    simp [pass_fn, mkMetrics]
  · intro hd
    show pass_fn cfg w t = false
    simp only [mkMetrics] at hd
    simp only [pass_fn, Bool.and_eq_false_iff, decide_eq_false_iff_not]
    right
    omega

theorem pass_qc_iff_witness :
    ((mkMetrics cfgD "s" "m" Wvis Tflat).pass_qc = true ↔
      (cfgD.visible_threshold ≤ (mkMetrics cfgD "s" "m" Wvis Tflat).avg_transmission_visible ∧
        (mkMetrics cfgD "s" "m" Wvis Tflat).defect_count = 0)) ∧
    (0 < (mkMetrics cfgD "s" "m" Wvis Tflat).defect_count →
      (mkMetrics cfgD "s" "m" Wvis Tflat).pass_qc = false) :=
  pass_qc_iff cfgD "s" "m" Wvis Tflat (mkMetrics cfgD "s" "m" Wvis Tflat)
    (calc_ok cfgD "s" "m" Wvis Tflat (by decide) (by decide))

/-- Claim C9: the returned average visible transmission is the mean over the
points whose wavelength lies in [400, 700] nm when the visible mask is
nonempty; otherwise it falls back to the full-spectrum mean and the
visible-range-not-covered note is appended. -/
theorem avg_visible_fallback (cfg : Config) (sid mat : String) (w t : List ℚ)
    (m : QualityMetrics) (h : calculate_metrics cfg sid mat w t = Except.ok m) :
    (hasVisible w = true →
      m.avg_transmission_visible = npMean (visibleSel w t) ∧
      Note.visibleRangeNotCovered ∉ m.notes) ∧
    (hasVisible w = false →
      m.avg_transmission_visible = npMean t ∧
      Note.visibleRangeNotCovered ∈ m.notes) := by
  obtain ⟨hm, -, -⟩ := calc_ok_inv h
  subst hm
  constructor
  · intro hv
    constructor
    · show avg_visible w t = _
      rw [avg_visible, if_pos hv]
    · show Note.visibleRangeNotCovered ∉ notes_fn cfg w t
      rw [notes_fn, if_pos hv]
      simp only [List.nil_append, List.mem_append]
      rintro (hmem | hmem)
      · split at hmem <;> simp_all
      · split at hmem
        · simp at hmem
        · rcases List.mem_append.1 hmem with hmem2 | hmem2
          · split at hmem2 <;> simp_all
          · split at hmem2 <;> simp_all
  · intro hv
    constructor
    · show avg_visible w t = _
      rw [avg_visible, hv]
      rfl
    · show Note.visibleRangeNotCovered ∈ notes_fn cfg w t
      rw [notes_fn, hv]
      simp

theorem avg_visible_fallback_witness :
    ((mkMetrics cfgD "s" "m" Wvis Tflat).avg_transmission_visible
        = npMean (visibleSel Wvis Tflat) ∧
      Note.visibleRangeNotCovered ∉ (mkMetrics cfgD "s" "m" Wvis Tflat).notes) ∧
    ((mkMetrics cfgD "s" "m" Wnir Tflat).avg_transmission_visible = npMean Tflat ∧
      Note.visibleRangeNotCovered ∈ (mkMetrics cfgD "s" "m" Wnir Tflat).notes) :=
  ⟨(avg_visible_fallback cfgD "s" "m" Wvis Tflat _
      (calc_ok cfgD "s" "m" Wvis Tflat (by decide) (by decide))).1 (by decide),
   (avg_visible_fallback cfgD "s" "m" Wnir Tflat _
      (calc_ok cfgD "s" "m" Wnir Tflat (by decide) (by decide))).2 (by decide)⟩

/-- Claim C8: the uniformity score lies in [0, 100]; it equals
`100 · max 0 (1 − std/mean)` over the visible subset when the visible mean is
positive, is 0 when that mean is not positive (cv treated as 1), and is 0
when no visible points exist. -/
theorem uniformity_bounds (cfg : Config) (sid mat : String) (w t : List ℚ)
    (m : QualityMetrics) (h : calculate_metrics cfg sid mat w t = Except.ok m) :
    (0 ≤ m.uniformity_score ∧ m.uniformity_score ≤ 100) ∧
    (hasVisible w = true →
      (0 < npMean (visibleSel w t) →
        m.uniformity_score
          = 100 * max 0 (1 - npStd (visibleSel w t) / (npMean (visibleSel w t) : ℝ))) ∧
      (npMean (visibleSel w t) ≤ 0 → m.uniformity_score = 0)) ∧
    (hasVisible w = false → m.uniformity_score = 0) := by
  obtain ⟨hm, -, -⟩ := calc_ok_inv h
  subst hm
  have hfield : (mkMetrics cfg sid mat w t).uniformity_score = uniformity_of w t := rfl
  rw [hfield]
  have hcv0 : 0 ≤ uniformity_cv w t := by
    rw [uniformity_cv]
    split
    · apply div_nonneg (Real.sqrt_nonneg _)
      rename_i hpos
      exact_mod_cast le_of_lt hpos
    · norm_num
  refine ⟨?_, ?_, ?_⟩
  · rw [uniformity_of]
    split
    · constructor
      · apply mul_nonneg (le_max_left 0 _)
        norm_num
      · have h1 : max 0 (1 - uniformity_cv w t) ≤ 1 := by
          apply max_le <;> linarith
        nlinarith
    · norm_num
  · intro hv
    constructor
    · intro hpos
      rw [uniformity_of, if_pos hv, uniformity_cv, if_pos hpos]
      rw [npStd]
      ring
    · intro hle
      rw [uniformity_of, if_pos hv, uniformity_cv, if_neg (not_lt.2 hle)]
      norm_num
  · intro hv
    rw [uniformity_of]
    simp [hv]

theorem uniformity_bounds_witness :
    (0 ≤ (mkMetrics cfgD "s" "m" Wvis Tflat).uniformity_score ∧
      (mkMetrics cfgD "s" "m" Wvis Tflat).uniformity_score ≤ 100) ∧
    (hasVisible Wvis = true →
      (0 < npMean (visibleSel Wvis Tflat) →
        (mkMetrics cfgD "s" "m" Wvis Tflat).uniformity_score
          = 100 * max 0 (1 - npStd (visibleSel Wvis Tflat)
              / (npMean (visibleSel Wvis Tflat) : ℝ))) ∧
      (npMean (visibleSel Wvis Tflat) ≤ 0 →
        (mkMetrics cfgD "s" "m" Wvis Tflat).uniformity_score = 0)) ∧
    (hasVisible Wvis = false →
      (mkMetrics cfgD "s" "m" Wvis Tflat).uniformity_score = 0) :=
  uniformity_bounds cfgD "s" "m" Wvis Tflat _
    (calc_ok cfgD "s" "m" Wvis Tflat (by decide) (by decide))

lemma qualifyingIdx_pairwise (t : List ℚ) (thr : ℚ) :
    (qualifyingIdx t thr).Pairwise (· < ·) :=
  (List.pairwise_lt_range t.length).filter _

lemma pairwise_lt_headD_le {l : List ℕ} (hp : l.Pairwise (· < ·)) :
    ∀ x ∈ l, l.headD 0 ≤ x := by
  cases l with
  | nil => intro x hx; cases hx
  | cons a as =>
    intro x hx
    rcases List.mem_cons.1 hx with rfl | hx2
    · exact le_refl _
    · exact le_of_lt (List.rel_of_pairwise_cons hp hx2)

lemma pairwise_lt_le_getLast : ∀ {l : List ℕ}, l.Pairwise (· < ·) →
    ∀ x ∈ l, x ≤ (l.getLast?).getD 0 := by
  intro l
  induction l with
  | nil => intro _ x hx; cases hx
  | cons a as ih =>
    intro hp x hx
    cases as with
    | nil =>
      rcases List.mem_cons.1 hx with rfl | hx2
      · simp [List.getLast?_singleton]
      · cases hx2
    | cons b bs =>
      rw [List.getLast?_cons_cons]
      rcases List.mem_cons.1 hx with rfl | hx2
      · have hab : x < b := List.rel_of_pairwise_cons hp (List.mem_cons_self b bs)
        have hb := ih hp.of_cons b (List.mem_cons_self b bs)
        omega
      · exact ih hp.of_cons x hx2

lemma headD_mem {l : List ℕ} (h : l ≠ []) : l.headD 0 ∈ l := by
  cases l with
  | nil => exact absurd rfl h
  | cons a as => exact List.mem_cons_self a as

lemma getLastD_mem_of_ne_nil {l : List ℕ} (h : l ≠ []) : (l.getLast?).getD 0 ∈ l := by
  cases hl : l.getLast? with
  | none => exact absurd (List.getLast?_eq_none_iff.1 hl) h
  | some a =>
    rw [Option.getD_some]
    exact getLast?_mem hl

/-- Claim C5: the bandwidth is the wavelength at the last index whose
transmission meets the threshold minus the wavelength at the first such
index — gaps between qualifying indices are ignored — and 0 when no point
meets the threshold. -/
theorem bandwidth_first_to_last (w t : List ℚ) (thr : ℚ) :
    ((∀ i, i < t.length → t.getD i 0 < thr) → calc_bandwidth w t thr = 0) ∧
    (∀ i0, i0 < t.length → thr ≤ t.getD i0 0 →
      ∃ i1 i2, i1 < t.length ∧ i2 < t.length ∧
        thr ≤ t.getD i1 0 ∧ thr ≤ t.getD i2 0 ∧
        (∀ j, j < t.length → thr ≤ t.getD j 0 → i1 ≤ j ∧ j ≤ i2) ∧
        calc_bandwidth w t thr = w.getD i2 0 - w.getD i1 0) := by
  constructor
  · intro hall
    have hnil : qualifyingIdx t thr = [] := by
      rw [List.eq_nil_iff_forall_not_mem]
      intro i hi
      rcases mem_qualifyingIdx.1 hi with ⟨hlt, hge⟩
      exact absurd hge (not_le.2 (hall i hlt))
    rw [calc_bandwidth]
    simp [hnil]
  · intro i0 hi0 hq0
    have hne : qualifyingIdx t thr ≠ [] := by
      intro hnil
      have : i0 ∈ qualifyingIdx t thr := mem_qualifyingIdx.2 ⟨hi0, hq0⟩
      rw [hnil] at this
      cases this
    refine ⟨(qualifyingIdx t thr).headD 0, ((qualifyingIdx t thr).getLast?).getD 0,
      ?_, ?_, ?_, ?_, ?_, ?_⟩
    · exact (mem_qualifyingIdx.1 (headD_mem hne)).1
    · exact (mem_qualifyingIdx.1 (getLastD_mem_of_ne_nil hne)).1
    · exact (mem_qualifyingIdx.1 (headD_mem hne)).2
    · exact (mem_qualifyingIdx.1 (getLastD_mem_of_ne_nil hne)).2
    · intro j hj hqj
      have hjm : j ∈ qualifyingIdx t thr := mem_qualifyingIdx.2 ⟨hj, hqj⟩
      exact ⟨pairwise_lt_headD_le (qualifyingIdx_pairwise t thr) j hjm,
        pairwise_lt_le_getLast (qualifyingIdx_pairwise t thr) j hjm⟩
    · rw [calc_bandwidth]
      simp [hne]

theorem bandwidth_first_to_last_witness :
    calc_bandwidth [1, 2, 3] [10, 10, 10] 80 = 0 ∧
    (∃ i1 i2, i1 < ([10, 90, 10] : List ℚ).length ∧ i2 < ([10, 90, 10] : List ℚ).length ∧
      (80 : ℚ) ≤ ([10, 90, 10] : List ℚ).getD i1 0 ∧
      (80 : ℚ) ≤ ([10, 90, 10] : List ℚ).getD i2 0 ∧
      (∀ j, j < ([10, 90, 10] : List ℚ).length →
        (80 : ℚ) ≤ ([10, 90, 10] : List ℚ).getD j 0 → i1 ≤ j ∧ j ≤ i2) ∧
      calc_bandwidth [1, 2, 3] [10, 90, 10] 80
        = ([1, 2, 3] : List ℚ).getD i2 0 - ([1, 2, 3] : List ℚ).getD i1 0) :=
  ⟨(bandwidth_first_to_last [1, 2, 3] [10, 10, 10] 80).1 (by decide),
   (bandwidth_first_to_last [1, 2, 3] [10, 90, 10] 80).2 1 (by decide) (by decide)⟩

lemma getD_mem {α : Type} (l : List α) (i : ℕ) (d : α) (h : i < l.length) :
    l.getD i d ∈ l := by
  rw [List.getD_eq_getElem?_getD, List.getElem?_eq_getElem h]
  exact List.getElem_mem h

lemma add_unique_subset : ∀ (flagged acc : List ℚ) (x : ℚ),
    x ∈ add_unique acc flagged → x ∈ acc ∨ x ∈ flagged := by
  intro flagged
  induction flagged with
  | nil =>
    intro acc x hx
    exact Or.inl hx
  | cons e es ih =>
    intro acc x hx
    rw [add_unique, List.foldl_cons] at hx
    rcases ih _ x hx with hx2 | hx2
    · by_cases hc : acc.any (fun loc => decide (|e - loc| < 50)) = true
      · rw [if_pos hc] at hx2
        exact Or.inl hx2
      · rw [if_neg hc] at hx2
        rcases List.mem_append.1 hx2 with hx3 | hx3
        · exact Or.inl hx3
        · right
          rw [List.mem_singleton.1 hx3]
          exact List.mem_cons_self _ _
    · exact Or.inr (List.mem_cons_of_mem e hx2)

lemma cluster_go_sub {P : ℕ → Prop} : ∀ (ys : List ℕ) (prev : ℕ) (cur : List ℕ)
    (acc : List (List ℕ)),
    (∀ c ∈ acc, ∀ i ∈ c, P i) → (∀ i ∈ cur, P i) → (∀ i ∈ ys, P i) →
    ∀ c ∈ cluster_go ys prev cur acc, ∀ i ∈ c, P i := by
  intro ys
  induction ys with
  | nil =>
    intro prev cur acc hacc hcur _ c hc i hi
    rw [cluster_go] at hc
    rcases List.mem_append.1 hc with hc2 | hc2
    · exact hacc c hc2 i hi
    · rcases List.mem_singleton.1 hc2 with rfl
      exact hcur i hi
  | cons y ys2 ih =>
    intro prev cur acc hacc hcur hys c hc i hi
    rw [cluster_go] at hc
    split at hc
    · refine ih y (cur ++ [y]) acc hacc ?_ (fun j hj => hys j (List.mem_cons_of_mem y hj))
        c hc i hi
      intro j hj
      rcases List.mem_append.1 hj with hj2 | hj2
      · exact hcur j hj2
      · rw [List.mem_singleton.1 hj2]
        exact hys _ (List.mem_cons_self _ _)
    · refine ih y [y] (acc ++ [cur]) ?_ ?_ (fun j hj => hys j (List.mem_cons_of_mem y hj))
        c hc i hi
      · intro c2 hc2
        rcases List.mem_append.1 hc2 with hc3 | hc3
        · exact hacc c2 hc3
        · rcases List.mem_singleton.1 hc3 with rfl
          exact hcur
      · intro j hj
        rw [List.mem_singleton.1 hj]
        exact hys _ (List.mem_cons_self _ _)

lemma clusterize_sub {P : ℕ → Prop} {l : List ℕ} (hl : ∀ i ∈ l, P i) :
    ∀ c ∈ clusterize l, ∀ i ∈ c, P i := by
  cases l with
  | nil =>
    intro c hc
    cases hc
  | cons x xs =>
    refine cluster_go_sub xs x [x] [] (fun c hc => absurd hc (List.not_mem_nil c)) ?_ ?_
    · intro i hi
      rw [List.mem_singleton.1 hi]
      exact hl _ (List.mem_cons_self _ _)
    · intro i hi
      exact hl i (List.mem_cons_of_mem x hi)

lemma cluster_go_ne_nil : ∀ (ys : List ℕ) (prev : ℕ) (cur : List ℕ)
    (acc : List (List ℕ)),
    (∀ c ∈ acc, c ≠ []) → cur ≠ [] →
    ∀ c ∈ cluster_go ys prev cur acc, c ≠ [] := by
  intro ys
  induction ys with
  | nil =>
    intro prev cur acc hacc hcur c hc
    rw [cluster_go] at hc
    rcases List.mem_append.1 hc with hc2 | hc2
    · exact hacc c hc2
    · rcases List.mem_singleton.1 hc2 with rfl
      exact hcur
  | cons y ys2 ih =>
    intro prev cur acc hacc hcur c hc
    rw [cluster_go] at hc
    split at hc
    · exact ih y (cur ++ [y]) acc hacc (by simp) c hc
    · refine ih y [y] (acc ++ [cur]) ?_ (by simp) c hc
      intro c2 hc2
      rcases List.mem_append.1 hc2 with hc3 | hc3
      · exact hacc c2 hc3
      · rcases List.mem_singleton.1 hc3 with rfl
        exact hcur

lemma clusterize_ne_nil {l : List ℕ} : ∀ c ∈ clusterize l, c ≠ [] := by
  cases l with
  | nil =>
    intro c hc
    cases hc
  | cons x xs =>
    exact cluster_go_ne_nil xs x [x] [] (fun c hc => absurd hc (List.not_mem_nil c))
      (by simp)

lemma np_gradient_length (t w : List ℚ) : (np_gradient t w).length = t.length := by
  simp [np_gradient]

lemma smooth_gradient_length (g : List ℚ) : (smooth_gradient g).length = g.length := by
  rw [smooth_gradient]
  split
  · rename_i hw
    rw [convolve_same_length, List.length_replicate]
    have h5 : min 5 (g.length / 10) ≤ 5 := min_le_left _ _
    have h10 : min 5 (g.length / 10) ≤ g.length / 10 := min_le_right _ _
    omega
  · rfl

lemma sharp_drops_lt (w t : List ℚ) : ∀ i ∈ sharp_drops w t, i < t.length := by
  intro i hi
  rw [sharp_drops] at hi
  have := List.mem_range.1 (List.mem_of_mem_filter hi)
  rw [smooth_gradient_length, np_gradient_length] at this
  exact this

lemma absorption_bands_lt (t : List ℚ) : ∀ i ∈ absorption_bands t, i < t.length := by
  intro i hi
  rw [absorption_bands] at hi
  exact List.mem_range.1 (List.mem_of_mem_filter hi)

lemma gradient_cluster_locations_mem (w t : List ℚ) (h : w.length = t.length) :
    ∀ x ∈ gradient_cluster_locations w t, x ∈ w := by
  intro x hx
  rw [gradient_cluster_locations] at hx
  rcases List.mem_map.1 hx with ⟨c, hc, rfl⟩
  have hcs : ∀ i ∈ c, i < t.length := clusterize_sub (sharp_drops_lt w t) c hc
  have hcne : c ≠ [] := clusterize_ne_nil c hc
  have hmid : c.getD (c.length / 2) 0 ∈ c := by
    apply getD_mem
    have : 0 < c.length := List.length_pos.2 hcne
    omega
  apply getD_mem
  rw [h]
  exact hcs _ hmid

/-- Claim C10: every reported defect wavelength is an element of the input
wavelength array (defects sit on existing sample points), and the returned
list is sorted ascending. -/
theorem defects_subset_sorted (w t : List ℚ) (locs : List ℚ)
    (h : detect_defects w t = Except.ok locs) :
    (∀ x ∈ locs, x ∈ w) ∧ locs.Sorted (· ≤ ·) := by
  have hlen : w.length = t.length := by
    by_cases hl : w.length = t.length
    · exact hl
    · exfalso
      rw [detect_defects_err w t (fun hc => hl hc.1)] at h
      exact Except.noConfusion h
  have h20 : 20 ≤ t.length := by
    by_cases hl : 20 ≤ t.length
    · exact hl
    · exfalso
      rw [detect_defects_err w t (fun hc => hl hc.2)] at h
      exact Except.noConfusion h
  rw [detect_defects_ok w t hlen h20] at h
  injection h with h2
  subst h2
  constructor
  · intro x hx
    rw [detect_defects_list] at hx
    have hx2 := (List.perm_insertionSort _ _).mem_iff.1 hx
    rcases add_unique_subset _ _ x hx2 with hx3 | hx3
    · exact gradient_cluster_locations_mem w t hlen x hx3
    · rcases List.mem_map.1 hx3 with ⟨i, hi, rfl⟩
      apply getD_mem
      rw [hlen]
      exact absorption_bands_lt t i hi
  · exact List.sorted_insertionSort _ _

theorem defects_subset_sorted_witness :
    (∀ x ∈ ([100000] : List ℚ), x ∈ W3) ∧ ([(100000 : ℚ)]).Sorted (· ≤ ·) :=
  defects_subset_sorted W3 T3 [100000] (by decide)

/-- Claim C3 (corrected): the local-deviation pass checks each flagged
wavelength against the WHOLE accumulating defect list — the gradient-pass
locations AND the locations this pass itself has already appended.  Hence the
newly added locations are pairwise at least 50 nm apart (and at least 50 nm
from every gradient-pass location), and every flagged wavelength is within
50 nm of something in the final list. -/
theorem add_unique_dedups (acc flagged : List ℚ) :
    ∃ added, add_unique acc flagged = acc ++ added ∧
      (∀ x ∈ added, x ∈ flagged) ∧
      (∀ x ∈ added, ∀ y ∈ acc, 50 ≤ |x - y|) ∧
      added.Pairwise (fun a b => 50 ≤ |b - a|) ∧
      (∀ x ∈ flagged, ∃ y ∈ add_unique acc flagged, |x - y| < 50) := by
  induction flagged generalizing acc with
  | nil =>
    refine ⟨[], by simp [add_unique], by simp, by simp, List.Pairwise.nil, by simp⟩
  | cons e es ih =>
    have hstep : add_unique acc (e :: es) =
        add_unique (if acc.any (fun loc => decide (|e - loc| < 50)) then acc
          else acc ++ [e]) es := by
      rw [add_unique, add_unique, List.foldl_cons]
    by_cases hc : acc.any (fun loc => decide (|e - loc| < 50)) = true
    · rw [if_pos hc] at hstep
      obtain ⟨added, h1, h2, h3, h4, h5⟩ := ih acc
      refine ⟨added, hstep.trans h1, ?_, h3, h4, ?_⟩
      · intro x hx
        exact List.mem_cons_of_mem e (h2 x hx)
      · intro x hx
        rcases List.mem_cons.1 hx with rfl | hx2
        · rcases List.any_eq_true.1 hc with ⟨loc, hloc, hdec⟩
          refine ⟨loc, ?_, of_decide_eq_true hdec⟩
          rw [hstep, h1]
          exact List.mem_append_left added hloc
        · obtain ⟨y, hy1, hy2⟩ := h5 x hx2
          refine ⟨y, ?_, hy2⟩
          rw [hstep]
          exact hy1
    · rw [if_neg hc] at hstep
      obtain ⟨added2, h1, h2, h3, h4, h5⟩ := ih (acc ++ [e])
      have hres : add_unique acc (e :: es) = acc ++ (e :: added2) := by
        rw [hstep, h1, List.append_assoc, List.singleton_append]
      have hfar : ∀ y ∈ acc, 50 ≤ |e - y| := by
        intro y hy
        have hy2 : ¬(acc.any (fun loc => decide (|e - loc| < 50)) = true) := hc
        rw [List.any_eq_true] at hy2
        push_neg at hy2
        have := hy2 y hy
        rw [Ne, decide_eq_true_eq] at this
        linarith [not_lt.1 this]
      refine ⟨e :: added2, hres, ?_, ?_, ?_, ?_⟩
      · intro x hx
        rcases List.mem_cons.1 hx with rfl | hx2
        · exact List.mem_cons_self _ _
        · exact List.mem_cons_of_mem e (h2 x hx2)
      · intro x hx y hy
        rcases List.mem_cons.1 hx with rfl | hx2
        · exact hfar y hy
        · exact h3 x hx2 y (List.mem_append_left [e] hy)
      · refine List.Pairwise.cons ?_ h4
        intro b hb
        have := h3 b hb e (List.mem_append_right acc (List.mem_singleton.2 rfl))
        linarith [this]
      · intro x hx
        rcases List.mem_cons.1 hx with rfl | hx2
        · refine ⟨x, ?_, by simp⟩
          rw [hres]
          exact List.mem_append_right acc (List.mem_cons_self _ _)
        · obtain ⟨y, hy1, hy2⟩ := h5 x hx2
          refine ⟨y, ?_, hy2⟩
          rw [hstep]
          exact hy1

theorem add_unique_dedups_witness :
    ∃ added, add_unique [] [100000, 100010] = [] ++ added ∧
      (∀ x ∈ added, x ∈ ([100000, 100010] : List ℚ)) ∧
      (∀ x ∈ added, ∀ y ∈ ([] : List ℚ), 50 ≤ |x - y|) ∧
      added.Pairwise (fun a b : ℚ => 50 ≤ |b - a|) ∧
      (∀ x ∈ ([100000, 100010] : List ℚ),
        ∃ y ∈ add_unique [] [100000, 100010], |x - y| < 50) :=
  add_unique_dedups [] [100000, 100010]

/-- Claim C3, counterexample to the claim as stated: on `W3`/`T3` the
local-deviation pass flags indices 10 and 11 (wavelengths 100000 and
100010 nm, within 50 nm of each other) while the gradient pass reports
nothing, yet `_detect_defects` returns only ONE of the two — the pass does
dedup against its own previously added location. -/
theorem detect_defects_near_duplicates_merged :
    (absorption_bands T3).map (fun i => W3.getD i 0) = [100000, 100010] ∧
    gradient_cluster_locations W3 T3 = [] ∧
    |(100010 : ℚ) - 100000| < 50 ∧
    detect_defects W3 T3 = Except.ok [100000] :=
  ⟨by decide, by decide, by norm_num, by decide⟩
